import Mathlib

/-! Verification of the download-orchestration pipeline of `main.py`
(YouTubeDownloaderBot).  Strings are embedded as lists of bytes
(`List Nat`, each element < 256, UTF-8); Python dictionaries coming from
the extractor are embedded as structures; the filesystem is a
`Finset (List Nat)` of existing paths; network, extractor and transport
effects are environment parameters of the embedded handlers.
-/

namespace Yutube

/-- Bytes of an ASCII string literal (codepoints, = UTF-8 bytes for ASCII). -/
def bytes (s : String) : List Nat := s.data.map Char.toNat

/-! Section: Percent-encoding (`encode_url` / `decode_url`, main.py lines 227-233)

`urllib.parse.quote(url, safe='')` percent-encodes every byte outside
ALPHA / DIGIT / `_.-~`; `urllib.parse.unquote` decodes `%XX` sequences,
leaving invalid sequences as literal text.  Both are modelled on the
UTF-8 byte sequence of the string. -/

/-- A byte that `urllib.parse.quote` leaves unencoded (its always-safe set
with `safe=''`): ASCII letters, digits, `_`, `.`, `-`, `~`. -/
def isUnreservedByte (b : Nat) : Bool :=
  (48 ≤ b && b ≤ 57) || (65 ≤ b && b ≤ 90) || (97 ≤ b && b ≤ 122) ||
  b == 95 || b == 46 || b == 45 || b == 126

/-- Uppercase hex digit byte for a nibble, as `quote` emits (`%02X`). -/
def hexUpper (n : Nat) : Nat := if n < 10 then 48 + n else 55 + n

/-- Is the byte an ASCII hex digit (`unquote` accepts both cases)? -/
def isHexByte (b : Nat) : Bool :=
  (48 ≤ b && b ≤ 57) || (65 ≤ b && b ≤ 70) || (97 ≤ b && b ≤ 102)

/-- Value of an ASCII hex digit byte. -/
def hexVal (b : Nat) : Nat :=
  if 48 ≤ b && b ≤ 57 then b - 48
  else if 65 ≤ b && b ≤ 70 then b - 55
  else if 97 ≤ b && b ≤ 102 then b - 87
  else 0

/-- `encode_url` (main.py 227-229): `urllib.parse.quote(url, safe='')` on the
UTF-8 bytes of the URL. -/
def encode_url : List Nat → List Nat
  | [] => []
  | b :: rest =>
    if isUnreservedByte b then b :: encode_url rest
    else 37 :: hexUpper (b / 16) :: hexUpper (b % 16) :: encode_url rest

/-- Scanner for `unquote`: each step consumes at least one byte and one unit
of fuel, so fuel = input length is always enough. -/
def decodeAux : Nat → List Nat → List Nat
  | 0, s => s
  | _ + 1, [] => []
  | fuel + 1, c :: rest =>
    if c == 37 then
      match rest with
      | h1 :: h2 :: rest2 =>
        if isHexByte h1 && isHexByte h2 then
          (hexVal h1 * 16 + hexVal h2) :: decodeAux fuel rest2
        else c :: decodeAux fuel rest
      | _ => c :: decodeAux fuel rest
    else c :: decodeAux fuel rest

/-- `decode_url` (main.py 231-233): `urllib.parse.unquote` on bytes.  A `%`
followed by two hex digits decodes to one byte; otherwise the `%` is kept
literally and scanning continues. -/
def decode_url (s : List Nat) : List Nat := decodeAux s.length s

/-! Section: String operations mirroring the Python `str` methods used -/

/-- Fuelled scanner for Python `str.replace` (all non-overlapping occurrences,
left to right).  Each step consumes at least one byte and exactly one unit of
fuel, so fuel = input length is always enough. -/
def replaceAllAux (pat rep : List Nat) : Nat → List Nat → List Nat
  | 0, s => s
  | _ + 1, [] => []
  | fuel + 1, c :: rest =>
    if !pat.isEmpty && pat.isPrefixOf (c :: rest) then
      rep ++ replaceAllAux pat rep fuel (List.drop (pat.length - 1) rest)
    else c :: replaceAllAux pat rep fuel rest

/-- Python `s.replace(pat, rep)` for a non-empty pattern. -/
def replaceAll (pat rep s : List Nat) : List Nat := replaceAllAux pat rep s.length s

/-- Python `pat in s` (substring test). -/
def containsSub (pat : List Nat) : List Nat → Bool
  | [] => pat.isEmpty
  | c :: rest => pat.isPrefixOf (c :: rest) || containsSub pat rest

/-- Python `str.lower` on an ASCII byte. -/
def lowerByte (b : Nat) : Nat := if 65 ≤ b && b ≤ 90 then b + 32 else b

/-- Python `str.lower`, bytewise (ASCII). -/
def lowerBytes (s : List Nat) : List Nat := s.map lowerByte

/-- Python `data.split("_")` for a single-byte separator: splits at every
occurrence, keeping empty pieces. -/
def splitOn (sep : Nat) : List Nat → List (List Nat)
  | [] => [[]]
  | c :: rest =>
    match splitOn sep rest with
    | [] => [[]]
    | p :: ps => if c == sep then [] :: p :: ps else (c :: p) :: ps

/-- Python `"_".join(parts)` for a single-byte separator. -/
def joinSep (sep : Nat) : List (List Nat) → List Nat
  | [] => []
  | [p] => p
  | p :: q :: ps => p ++ sep :: joinSep sep (q :: ps)

/-- Decimal digit bytes of a `Nat` (Python `f"{n}"`), fuelled; `fuel = n + 1`
always suffices since `n < 10 ^ (n + 1)`. -/
def natBytesAux : Nat → Nat → List Nat
  | 0, _ => []
  | fuel + 1, n =>
    if n < 10 then [48 + n] else natBytesAux fuel (n / 10) ++ [48 + n % 10]

/-- Decimal representation of a `Nat` as ASCII bytes. -/
def natBytes (n : Nat) : List Nat := natBytesAux (n + 1) n

/-- Left inverse of `natBytes`, used to prove it injective. -/
def bytesToNat (s : List Nat) : Nat := s.foldl (fun acc b => acc * 10 + (b - 48)) 0

/-! Section: CredentialStore: `download_cookies_from_url` (main.py 51-81)

The persisted cookie file is modelled as `Option (List Nat)` (its content, or
absent).  The network is an environment function `fetch`;
`aiohttp` exceptions are `FetchResult.err`. -/

/-- Outcome of the HTTP GET in `download_cookies_from_url`. -/
inductive FetchResult
  | err
  | resp (status : Nat) (content : List Nat)

/-- URL normalisation at main.py 54-58: a `batbin.me/` URL without `/raw/`
is rewritten to its raw-content form. -/
def cookie_fetch_url (url : List Nat) : List Nat :=
  if containsSub (bytes "batbin.me/") url then
    if !containsSub (bytes "/raw/") url then
      replaceAll (bytes "batbin.me/") (bytes "batbin.me/raw/") url
    else url
  else url

/-- Validation at main.py 66: lowercased content must contain `youtube.com`
or `# http`. -/
def cookies_valid (content : List Nat) : Bool :=
  containsSub (bytes "youtube.com") (lowerBytes content) ||
  containsSub (bytes "# http") (lowerBytes content)

/-- `download_cookies_from_url` (main.py 51-81): returns the Python result
(`True`/`False`) and the cookie-file state after the call. -/
def download_cookies_from_url (stored : Option (List Nat)) (url : List Nat)
    (fetch : List Nat → FetchResult) : Bool × Option (List Nat) :=
  match fetch (cookie_fetch_url url) with
  | .err => (false, stored)
  | .resp status content =>
    if status == 200 then
      if cookies_valid content then (true, some content)
      else (false, stored)
    else (false, stored)

/-! Section: Admin-gated credential updates (main.py 463-514)

`handle_document` and `update_cookies` each check `user_id not in
Config.ADMIN_IDS` first.  The third component of the result records whether
any transfer (document download resp. cookie fetch) was attempted. -/

/-- Replies the two admin handlers can produce. -/
inductive AdminReply
  | onlyAdminsUpload | onlyAdminsUpdate | notTxtFile | uploaded
  | updated | updateFailed | noCookieUrl | errReply
deriving DecidableEq

/-- `handle_document` (main.py 463-488).  `downloaded` is the environment's
result for `document.get_file().download(...)`: `some c` means the file was
fetched with content `c`, `none` means the transfer raised. -/
def handle_document (adminIds : Finset Nat) (user : Nat) (fileName : List Nat)
    (stored : Option (List Nat)) (downloaded : Option (List Nat)) :
    AdminReply × Option (List Nat) × Bool :=
  if user ∉ adminIds then (.onlyAdminsUpload, stored, false)
  else if !(bytes ".txt").isSuffixOf fileName then (.notTxtFile, stored, false)
  else
    match downloaded with
    | some c => (.uploaded, some c, true)
    | none => (.errReply, stored, true)

/-- `update_cookies` (main.py 490-514). -/
def update_cookies (adminIds : Finset Nat) (user : Nat)
    (cookieUrl : Option (List Nat)) (stored : Option (List Nat))
    (fetch : List Nat → FetchResult) : AdminReply × Option (List Nat) × Bool :=
  if user ∉ adminIds then (.onlyAdminsUpdate, stored, false)
  else
    match cookieUrl with
    | none => (.noCookieUrl, stored, false)
    | some u =>
      let r := download_cookies_from_url stored u fetch
      (if r.1 then .updated else .updateFailed, r.2, true)

/-! Section: URL validation (`validate_youtube_url`, main.py 402-414)

Each pattern is `(https?://)?(www\.)?<host-literal><one or more id chars>`,
matched from the start of the string (`re.match`); trailing text is allowed.
The optional groups are literal, so greedy matching is deterministic. -/

/-- A byte of the regex class `[a-zA-Z0-9_-]`. -/
def isIdByte (b : Nat) : Bool :=
  (48 ≤ b && b ≤ 57) || (65 ≤ b && b ≤ 90) || (97 ≤ b && b ≤ 122) ||
  b == 95 || b == 45

/-- Consume an optional `https://` or `http://` scheme (`(https?://)?`). -/
def dropSchemeOpt (s : List Nat) : List Nat :=
  if (bytes "https://").isPrefixOf s then s.drop 8
  else if (bytes "http://").isPrefixOf s then s.drop 7
  else s

/-- Consume an optional `www.` (`(www\.)?`). -/
def dropWwwOpt (s : List Nat) : List Nat :=
  if (bytes "www.").isPrefixOf s then s.drop 4 else s

/-- Match a literal host part followed by at least one id byte. -/
def matchHostTail (host s : List Nat) : Bool :=
  host.isPrefixOf s &&
    (match s.drop host.length with
     | [] => false
     | b :: _ => isIdByte b)

/-- `validate_youtube_url` (main.py 402-414): the four accepted URL shapes. -/
def validate_youtube_url (url : List Nat) : Bool :=
  let s := dropWwwOpt (dropSchemeOpt url)
  matchHostTail (bytes "youtube.com/watch?v=") s ||
  matchHostTail (bytes "youtu.be/") s ||
  matchHostTail (bytes "youtube.com/embed/") s ||
  matchHostTail (bytes "youtube.com/shorts/") s

/-! Section: FormatCatalog (main.py 169-186, inside `process_download`)

One extractor format dictionary is a `Variant`; the keyboard rows built from
it are `FormatOption`s.  The source dedups on the label string
`f"{height}p"` kept in the set `unique_resolutions`. -/

/-- One entry of `video_info['formats']`: the fields the code reads.
`height` is `fmt.get('height')`, `ext` is `fmt.get('ext')`. -/
structure Variant where
  height : Option Nat
  ext : Option (List Nat)
deriving DecidableEq

/-- One keyboard row: a video resolution button or the audio-only button. -/
inductive FormatOption
  | video (height : Nat)
  | audio
deriving DecidableEq

/-- The filter at main.py 174: `fmt.get('height') and fmt.get('ext') in
['mp4', 'webm']` (Python truthiness: a present, non-zero height). -/
def variant_ok (v : Variant) : Bool :=
  (match v.height with
   | some n => n != 0
   | none => false) &&
  (v.ext == some (bytes "mp4") || v.ext == some (bytes "webm"))

/-- The label string `f"{fmt['height']}p"` used as dedup key. -/
def labelOf (h : Nat) : List Nat := natBytes h ++ [112]

/-- The format loop of main.py 173-181, carrying `unique_resolutions`. -/
def build_loop (seen : Finset (List Nat)) : List Variant → List FormatOption
  | [] => []
  | v :: rest =>
    if variant_ok v then
      match v.height with
      | some h =>
        if labelOf h ∈ seen then build_loop seen rest
        else .video h :: build_loop (insert (labelOf h) seen) rest
      | none => build_loop seen rest
    else build_loop seen rest

/-- The full keyboard of main.py 169-186: the video rows, then the
unconditional audio-only row. -/
def build_options (formats : List Variant) : List FormatOption :=
  build_loop ∅ formats ++ [.audio]

/-- The height of a variant that passes the filter, `none` otherwise. -/
def qualHeight (v : Variant) : Option Nat :=
  if variant_ok v then v.height else none

/-- The heights of the qualifying variants, in source order. -/
def qualHeights (formats : List Variant) : List Nat := formats.filterMap qualHeight

/-- Specification-level dedup: keep the first occurrence of each value,
relative to an initial set of already-seen values. -/
def dedupFirstFrom (seen : Finset Nat) : List Nat → List Nat
  | [] => []
  | h :: t =>
    if h ∈ seen then dedupFirstFrom seen t
    else h :: dedupFirstFrom (insert h seen) t

/-- Specification-level dedup keeping first occurrences. -/
def dedupFirst : List Nat → List Nat := dedupFirstFrom ∅

/-! Section: `process_download` (main.py 139-200)

The per-requester slot set `self.downloading_users` is the explicit state.
`info` is the environment's result for `get_video_info(url)` (main.py
384-400, `None` on failure).  The `try`/`finally` discards the requester
from the set on every exit path of the `try` body. -/

/-- `video_info` as used by `process_download`: `title`, top-level
`filesize` (`.get('filesize', 0)`, so absent = 0) and `formats`. -/
structure VideoInfo where
  title : List Nat
  filesize : Nat
  formats : List Variant
deriving DecidableEq

/-- The user-visible outcome of one `process_download` call. -/
inductive PDOut
  | alreadyDownloading
  | invalidUrl
  | fetchFailed
  | tooLarge
  | selection (title : List Nat) (options : List FormatOption)
deriving DecidableEq

/-- `process_download` (main.py 139-200): returns the slot set after the call
and the outcome shown to the user. -/
def process_download (users : Finset Nat) (user : Nat) (url : List Nat)
    (maxVideoSize : Nat) (info : Option VideoInfo) : Finset Nat × PDOut :=
  if user ∈ users then (users, .alreadyDownloading)
  else if !validate_youtube_url url then (users, .invalidUrl)
  else
    let users1 := insert user users
    match info with
    | none => (users1.erase user, .fetchFailed)
    | some vi =>
      if vi.filesize > maxVideoSize * 1024 * 1024 then (users1.erase user, .tooLarge)
      else (users1.erase user,
            .selection (vi.title.take 50) (build_options vi.formats))

/-! Section: `handle_callback` (main.py 202-225)

The callback data is parsed textually; a `dl_`-event with at least three
`_`-separated parts invokes `perform_download` with the decoded URL and the
last part as quality.  No job state and no catalog is consulted. -/

/-- The action a callback dispatches to. -/
inductive CBAction
  | promptForUrl
  | settingsShown
  | perform (url : List Nat) (quality : List Nat)
  | noAction
deriving DecidableEq

/-- `handle_callback` (main.py 202-225). -/
def handle_callback (data : List Nat) : CBAction :=
  if data = bytes "download" then .promptForUrl
  else if data = bytes "settings" then .settingsShown
  else if (bytes "dl_").isPrefixOf data then
    let parts := splitOn 95 data
    if parts.length ≥ 3 then
      .perform (decode_url (joinSep 95 (parts.drop 1).dropLast))
               ((parts.getLast?).getD [])
    else if parts.length == 2 && parts[1]? == some (bytes "audio") then
      .perform (decode_url (data.drop 3)) (bytes "audio")
    else .noAction
  else .noAction

/-! Section: `compress_video` (main.py 358-382) and `send_video` (main.py 300-356)

The filesystem is a `Finset (List Nat)` of existing paths.  The transcoder
outcome is an environment value: `ok` = ffmpeg succeeds, `crash` = nonzero
exit (`subprocess.CalledProcessError`, caught at main.py 380), `absent` =
`subprocess.run` itself raises (e.g. `FileNotFoundError` when ffmpeg is not
installed), which no handler in `compress_video` catches. -/

/-- Transcoder outcomes. -/
inductive EncOutcome
  | ok
  | crash
  | absent

/-- Transport outcomes of the `reply_video`/`reply_audio` call: success,
`BadRequest` containing "file is too big", another `BadRequest`, or any
other exception. -/
inductive SendOutcome
  | ok
  | tooBig
  | badOther
  | exc

/-- `output_path = filepath.replace(".mp4", "_compressed.mp4")`
(main.py 360). -/
def output_path (filepath : List Nat) : List Nat :=
  replaceAll (bytes ".mp4") (bytes "_compressed.mp4") filepath

/-- The pre-encoding cleanup at main.py 361-362: delete `output_path` if it
already exists.  This is the filesystem handed to ffmpeg. -/
def compress_preclean (fs : Finset (List Nat)) (filepath : List Nat) :
    Finset (List Nat) :=
  if output_path filepath ∈ fs then fs.erase (output_path filepath) else fs

/-- `compress_video` (main.py 358-382): `Except.ok p` is a normal return of
path `p`, `Except.error ()` an uncaught exception; paired with the
filesystem after the call. -/
def compress_video (fs : Finset (List Nat)) (filepath : List Nat)
    (enc : EncOutcome) : Except Unit (List Nat) × Finset (List Nat) :=
  let fs1 := compress_preclean fs filepath
  match enc with
  | .ok => (Except.ok (output_path filepath), insert (output_path filepath) fs1)
  | .crash => (Except.ok filepath, fs1)
  | .absent => (Except.error (), fs1)

/-- The final message `send_video` leaves on the chat. -/
inductive SendMsg
  | complete
  | tooLargeTelegram
  | sendError
  | genericError
deriving DecidableEq

/-- Result of `send_video`: final message, filesystem after the call, and the
path handed to the transport (if a send was attempted). -/
structure SendResult where
  msg : SendMsg
  fs : Finset (List Nat)
  delivered : Option (List Nat)

/-- `send_video` (main.py 300-356).  `fallback` is the environment's result
for the directory search at main.py 304-311 when `filepath` is missing;
`size` gives file sizes in bytes (`file_size > 50` MB compares exactly as
`size > 50 * 1024 * 1024` since the divisor is a power of two).  Cleanup
(main.py 338-344) runs only in the success branch, inside a bare
`try`/`except: pass`: a failing `os.remove(filepath)` skips the removal of
the compressed copy but is swallowed. -/
def send_video (fs : Finset (List Nat)) (filepath : List Nat)
    (size : List Nat → Nat) (enc : EncOutcome) (send : SendOutcome)
    (fallback : Option (List Nat)) : SendResult :=
  match (if filepath ∈ fs then some filepath else fallback) with
  | none => ⟨.genericError, fs, none⟩
  | some fp =>
    let step :=
      if size fp > 50 * 1024 * 1024 then compress_video fs fp enc
      else (Except.ok fp, fs)
    match step with
    | (.error _, fs1) => ⟨.genericError, fs1, none⟩
    | (.ok fileToSend, fs1) =>
      if fileToSend ∉ fs1 then ⟨.genericError, fs1, none⟩
      else
        match send with
        | .ok =>
          let fs2 :=
            if fp ∈ fs1 then
              let fsA := fs1.erase fp
              if fileToSend ≠ fp ∧ fileToSend ∈ fsA then fsA.erase fileToSend
              else fsA
            else fs1
          ⟨.complete, fs2, some fileToSend⟩
        | .tooBig => ⟨.tooLargeTelegram, fs1, some fileToSend⟩
        | .badOther => ⟨.sendError, fs1, some fileToSend⟩
        | .exc => ⟨.genericError, fs1, some fileToSend⟩

/-! Section: Concrete data for witnesses and counterexamples -/

/-- A small format list: 720p mp4, 480p mp4, a duplicate 480p webm, and an
audio-only m4a variant (no height). -/
def demoFormats : List Variant :=
  [⟨some 720, some (bytes "mp4")⟩, ⟨some 480, some (bytes "mp4")⟩,
   ⟨some 480, some (bytes "webm")⟩, ⟨none, some (bytes "m4a")⟩]

/-- A small extractor result: 10 MB declared size. -/
def demoInfo : VideoInfo := ⟨bytes "demo", 10 * 1024 * 1024, demoFormats⟩

/-- An extractor result declaring 200 MB. -/
def demoBigInfo : VideoInfo := ⟨bytes "big", 200 * 1024 * 1024, demoFormats⟩

end Yutube

namespace Yutube

/-! Section: Lemmas about percent-encoding -/

lemma hexVal_hexUpper {n : Nat} (h : n < 16) : hexVal (hexUpper n) = n := by
  unfold hexVal hexUpper
  interval_cases n <;> simp

lemma isHexByte_hexUpper {n : Nat} (h : n < 16) : isHexByte (hexUpper n) = true := by
  unfold isHexByte hexUpper
  interval_cases n <;> simp

lemma isUnreservedByte_ne_37 {b : Nat} (h : isUnreservedByte b = true) : b ≠ 37 := by
  unfold isUnreservedByte at h
  rintro rfl
  simp at h

lemma decode_encode_aux :
    ∀ fuel (u : List Nat), (∀ b ∈ u, b < 256) →
      (encode_url u).length ≤ fuel → decodeAux fuel (encode_url u) = u := by
  intro fuel
  induction fuel with
  | zero =>
    intro u _ hlen
    cases u with
    | nil => rfl
    | cons b rest =>
      exfalso
      unfold encode_url at hlen
      by_cases hu : isUnreservedByte b = true <;> simp [hu] at hlen
  | succ fuel ih =>
    intro u hlt hlen
    cases u with
    | nil => rfl
    | cons b rest =>
      have hb : b < 256 := hlt b (List.mem_cons_self b rest)
      have hrest : ∀ x ∈ rest, x < 256 := fun x hx => hlt x (List.mem_cons_of_mem b hx)
      by_cases hu : isUnreservedByte b = true
      · have hb37 : b ≠ 37 := isUnreservedByte_ne_37 hu
        have hb37b : (b == 37) = false := by simp [hb37]
        have hlen2 : (encode_url rest).length ≤ fuel := by
          simp only [encode_url, hu, if_pos, List.length_cons] at hlen
          omega
        simp [encode_url, hu, decodeAux, hb37b, ih rest hrest hlen2]
      · have hhi : b / 16 < 16 := by omega
        have hlo : b % 16 < 16 := by omega
        have hlen2 : (encode_url rest).length ≤ fuel := by
          simp only [encode_url, hu, Bool.false_eq_true, if_false,
            List.length_cons] at hlen
          omega
        simp only [encode_url, hu, Bool.false_eq_true, if_false]
        simp [decodeAux, isHexByte_hexUpper hhi, isHexByte_hexUpper hlo,
              hexVal_hexUpper hhi, hexVal_hexUpper hlo, ih rest hrest hlen2]
        omega

/-- Round trip at the byte level: decoding an encoded byte string recovers it. -/
lemma decode_encode {u : List Nat} (h : ∀ b ∈ u, b < 256) :
    decode_url (encode_url u) = u :=
  decode_encode_aux (encode_url u).length u h le_rfl

/-! Section: Lemmas about `replaceAll` and `containsSub` -/

lemma isPrefixOf_length_le :
    ∀ l1 l2 : List Nat, l1.isPrefixOf l2 = true → l1.length ≤ l2.length := by
  intro l1
  induction l1 with
  | nil => intro l2 _; simp
  | cons a as ih =>
    intro l2 h
    cases l2 with
    | nil => simp [List.isPrefixOf] at h
    | cons b bs =>
      simp only [List.isPrefixOf, Bool.and_eq_true] at h
      simpa using ih bs h.2

lemma isPrefixOf_append_self (l1 l2 : List Nat) :
    l1.isPrefixOf (l1 ++ l2) = true := by
  induction l1 with
  | nil => simp [List.isPrefixOf]
  | cons a as ih => simp [List.isPrefixOf, ih]

lemma replaceAllAux_of_not_contains (pat rep : List Nat) :
    ∀ fuel s, containsSub pat s = false → replaceAllAux pat rep fuel s = s := by
  intro fuel
  induction fuel with
  | zero => intro s _; rfl
  | succ fuel ih =>
    intro s hc
    cases s with
    | nil => rfl
    | cons c rest =>
      simp only [containsSub, Bool.or_eq_false_iff] at hc
      simp [replaceAllAux, hc.1, ih rest hc.2]

/-- If the pattern does not occur, `replace` is the identity. -/
lemma replaceAll_of_not_contains {pat s : List Nat} (rep : List Nat)
    (h : containsSub pat s = false) : replaceAll pat rep s = s :=
  replaceAllAux_of_not_contains pat rep s.length s h

lemma replaceAllAux_length_ge {pat rep : List Nat} (hlen : pat.length ≤ rep.length) :
    ∀ fuel s, s.length ≤ fuel → s.length ≤ (replaceAllAux pat rep fuel s).length := by
  intro fuel
  induction fuel with
  | zero => intro s h; omega
  | succ fuel ih =>
    intro s hs
    cases s with
    | nil => simp [replaceAllAux]
    | cons c rest =>
      by_cases hm : (!pat.isEmpty && pat.isPrefixOf (c :: rest)) = true
      · have hpre : pat.length ≤ rest.length + 1 := by
          have := isPrefixOf_length_le pat (c :: rest) (Bool.and_elim_right hm)
          simpa using this
        have hdrop : (List.drop (pat.length - 1) rest).length ≤ fuel := by
          simp only [List.length_drop]
          simp only [List.length_cons] at hs
          omega
        have h2 := ih (List.drop (pat.length - 1) rest) hdrop
        simp only [replaceAllAux, hm, if_pos, List.length_append, List.length_cons,
          List.length_drop] at h2 ⊢
        have hp1 : 1 ≤ pat.length := by
          rcases pat with _ | ⟨a, t⟩
          · simp at hm
          · simp
        omega
      · have h2 := ih rest (by simp only [List.length_cons] at hs; omega)
        simp only [replaceAllAux, hm, if_neg, List.length_cons]
        simp only [Bool.not_eq_true] at hm
        simp [hm]
        omega

lemma replaceAllAux_length_gt {pat rep : List Nat} (hp : pat ≠ [])
    (hlen : pat.length < rep.length) :
    ∀ fuel s, s.length ≤ fuel → containsSub pat s = true →
      s.length < (replaceAllAux pat rep fuel s).length := by
  intro fuel
  induction fuel with
  | zero =>
    intro s hs hc
    interval_cases hn : s.length
    · rcases List.length_eq_zero.mp hn with rfl
      simp only [containsSub, List.isEmpty_iff] at hc
      exact absurd hc hp
  | succ fuel ih =>
    intro s hs hc
    cases s with
    | nil =>
      simp only [containsSub, List.isEmpty_iff] at hc
      exact absurd hc hp
    | cons c rest =>
      by_cases hm : (!pat.isEmpty && pat.isPrefixOf (c :: rest)) = true
      · have hpre : pat.length ≤ rest.length + 1 := by
          have := isPrefixOf_length_le pat (c :: rest) (Bool.and_elim_right hm)
          simpa using this
        have hdrop : (List.drop (pat.length - 1) rest).length ≤ fuel := by
          simp only [List.length_drop]
          simp only [List.length_cons] at hs
          omega
        have h2 := replaceAllAux_length_ge (le_of_lt hlen) fuel
          (List.drop (pat.length - 1) rest) hdrop
        simp only [replaceAllAux, hm, if_pos, List.length_append, List.length_cons,
          List.length_drop] at h2 ⊢
        have hp1 : 1 ≤ pat.length := by
          rcases pat with _ | ⟨a, t⟩
          · exact absurd rfl hp
          · simp
        omega
      · have hm' : (!pat.isEmpty && pat.isPrefixOf (c :: rest)) = false :=
          Bool.eq_false_iff.mpr hm
        have hnp : pat.isPrefixOf (c :: rest) = false := by
          rcases Bool.and_eq_false_iff.mp hm' with h | h
          · simp at h
            exact absurd h hp
          · exact h
        have hcrest : containsSub pat rest = true := by
          simp only [containsSub, hnp, Bool.false_or] at hc
          exact hc
        have h2 := ih rest (by simp only [List.length_cons] at hs; omega) hcrest
        simp only [replaceAllAux, hm, if_neg, List.length_cons]
        simp only [Bool.not_eq_true] at hm
        simp [hm]
        omega

/-- If the pattern occurs and the replacement is strictly longer, the result
is strictly longer, hence different from the input. -/
lemma replaceAll_ne_of_contains {pat rep s : List Nat} (hp : pat ≠ [])
    (hlen : pat.length < rep.length) (hc : containsSub pat s = true) :
    replaceAll pat rep s ≠ s := by
  intro he
  have hlt := replaceAllAux_length_gt hp hlen s.length s le_rfl hc
  have he2 : (replaceAllAux pat rep s.length s).length = s.length := by
    rw [replaceAll] at he
    rw [he]
  omega

/-- A path containing `.mp4` differs from its `compress_video` output path. -/
lemma output_path_ne_of_mp4 {p : List Nat}
    (h : containsSub (bytes ".mp4") p = true) : output_path p ≠ p :=
  replaceAll_ne_of_contains (by decide) (by decide) h

/-! Section: Lemmas about `splitOn` and `joinSep` -/

lemma splitOn_ne_nil (sep : Nat) : ∀ s, splitOn sep s ≠ [] := by
  intro s
  induction s with
  | nil => simp [splitOn]
  | cons c rest ih =>
    simp only [splitOn]
    cases h : splitOn sep rest with
    | nil => simp
    | cons p ps => by_cases hc : c == sep <;> simp [hc]

lemma splitOn_append_sep (sep : Nat) :
    ∀ l1 l2, splitOn sep (l1 ++ sep :: l2) = splitOn sep l1 ++ splitOn sep l2 := by
  intro l1
  induction l1 with
  | nil =>
    intro l2
    simp only [List.nil_append, splitOn]
    cases h : splitOn sep l2 with
    | nil => exact absurd h (splitOn_ne_nil sep l2)
    | cons p ps => simp
  | cons c l1 ih =>
    intro l2
    simp only [List.cons_append, splitOn]
    cases h : splitOn sep l1 with
    | nil => exact absurd h (splitOn_ne_nil sep l1)
    | cons p ps =>
      simp only [List.append_eq]
      rw [ih l2, h]
      by_cases hc : c == sep <;> simp [hc]

lemma splitOn_no_sep (sep : Nat) :
    ∀ s, sep ∉ s → splitOn sep s = [s] := by
  intro s
  induction s with
  | nil => intro _; rfl
  | cons c rest ih =>
    intro hmem
    have hc : c ≠ sep := fun h => hmem (h ▸ List.mem_cons_self c rest)
    have hcb : (c == sep) = false := by simp [hc]
    have hrest : sep ∉ rest := fun h => hmem (List.mem_cons_of_mem c h)
    simp [splitOn, ih hrest, hcb]

lemma joinSep_cons_cons (sep c : Nat) (p : List Nat) (ps : List (List Nat)) :
    joinSep sep ((c :: p) :: ps) = c :: joinSep sep (p :: ps) := by
  cases ps <;> rfl

lemma joinSep_splitOn (sep : Nat) : ∀ s, joinSep sep (splitOn sep s) = s := by
  intro s
  induction s with
  | nil => rfl
  | cons c rest ih =>
    simp only [splitOn]
    cases h : splitOn sep rest with
    | nil => exact absurd h (splitOn_ne_nil sep rest)
    | cons p ps =>
      rw [h] at ih
      by_cases hc : c == sep
      · have hcs : c = sep := by simpa using hc
        subst hcs
        simp [joinSep, ih]
      · have hcb : (c == sep) = false := by simpa using hc
        simp only [hcb, Bool.false_eq_true, if_false, joinSep_cons_cons, ih]

/-! Section: Decimal labels are injective -/

lemma bytesToNat_append_digit (xs : List Nat) (b : Nat) :
    bytesToNat (xs ++ [b]) = bytesToNat xs * 10 + (b - 48) := by
  simp [bytesToNat, List.foldl_append]

lemma bytesToNat_natBytesAux :
    ∀ fuel n, n < 10 ^ fuel → bytesToNat (natBytesAux fuel n) = n := by
  intro fuel
  induction fuel with
  | zero =>
    intro n hn
    interval_cases n
    rfl
  | succ fuel ih =>
    intro n hn
    by_cases h10 : n < 10
    · simp [natBytesAux, h10, bytesToNat]
    · have hdiv : n / 10 < 10 ^ fuel := by
        rw [Nat.div_lt_iff_lt_mul (by norm_num)]
        calc n < 10 ^ (fuel + 1) := hn
        _ = 10 ^ fuel * 10 := by ring
      simp only [natBytesAux, h10, if_false]
      rw [bytesToNat_append_digit, ih (n / 10) hdiv]
      omega

lemma bytesToNat_natBytes (n : Nat) : bytesToNat (natBytes n) = n :=
  bytesToNat_natBytesAux (n + 1) n
    (calc n < 10 ^ n := Nat.lt_pow_self (by norm_num) n
      _ ≤ 10 ^ (n + 1) := Nat.pow_le_pow_right (by norm_num) (Nat.le_succ n))

lemma labelOf_inj {h1 h2 : Nat} (h : labelOf h1 = labelOf h2) : h1 = h2 := by
  have hn : natBytes h1 = natBytes h2 := List.append_cancel_right h
  have := congrArg bytesToNat hn
  rwa [bytesToNat_natBytes, bytesToNat_natBytes] at this

/-! Section: The format loop equals first-occurrence dedup of qualifying heights -/

lemma variant_ok_height {v : Variant} (h : variant_ok v = true) :
    ∃ n, v.height = some n ∧ n ≠ 0 := by
  rw [variant_ok] at h
  cases hv : v.height with
  | none => rw [hv] at h; simp at h
  | some n =>
    rw [hv] at h
    simp only [Bool.and_eq_true, ne_eq, bne_iff_ne] at h
    exact ⟨n, rfl, h.1⟩

lemma variant_ok_ext {v : Variant} (h : variant_ok v = true) :
    v.ext = some (bytes "mp4") ∨ v.ext = some (bytes "webm") := by
  rw [variant_ok] at h
  simp only [Bool.and_eq_true, Bool.or_eq_true, beq_iff_eq] at h
  exact h.2

lemma build_loop_eq :
    ∀ (l : List Variant) (seenL : Finset (List Nat)) (seenH : Finset Nat),
      (∀ h, labelOf h ∈ seenL ↔ h ∈ seenH) →
      build_loop seenL l = (dedupFirstFrom seenH (qualHeights l)).map .video := by
  intro l
  induction l with
  | nil => intro seenL seenH _; simp [build_loop, qualHeights, dedupFirstFrom]
  | cons v rest ih =>
    intro seenL seenH hinv
    by_cases hok : variant_ok v = true
    · obtain ⟨h, hh, _⟩ := variant_ok_height hok
      have hq : qualHeights (v :: rest) = h :: qualHeights rest := by
        simp [qualHeights, qualHeight, hok, hh]
      rw [hq]
      by_cases hseen : labelOf h ∈ seenL
      · have hH : h ∈ seenH := (hinv h).mp hseen
        simp [build_loop, hok, hh, hseen, dedupFirstFrom, hH, ih seenL seenH hinv]
      · have hH : h ∉ seenH := fun c => hseen ((hinv h).mpr c)
        have hinv2 : ∀ h2,
            labelOf h2 ∈ insert (labelOf h) seenL ↔ h2 ∈ insert h seenH := by
          intro h2
          simp only [Finset.mem_insert]
          constructor
          · rintro (he | hm)
            · exact Or.inl (labelOf_inj he)
            · exact Or.inr ((hinv h2).mp hm)
          · rintro (rfl | hm)
            · exact Or.inl rfl
            · exact Or.inr ((hinv h2).mpr hm)
        simp [build_loop, hok, hh, hseen, dedupFirstFrom, hH, ih _ _ hinv2]
    · have hq : qualHeights (v :: rest) = qualHeights rest := by
        simp [qualHeights, qualHeight, hok]
      simp [build_loop, hok, hq, ih seenL seenH hinv]

/-- The catalog is the first-occurrence dedup of the qualifying heights,
mapped to video options, with the audio option appended last. -/
lemma build_options_eq (formats : List Variant) :
    build_options formats
      = (dedupFirst (qualHeights formats)).map .video ++ [.audio] := by
  rw [build_options, dedupFirst, build_loop_eq formats ∅ ∅ (by simp)]

lemma mem_of_mem_dedupFirstFrom {x : Nat} :
    ∀ (l : List Nat) (seen : Finset Nat), x ∈ dedupFirstFrom seen l → x ∈ l := by
  intro l
  induction l with
  | nil => intro seen h; simp [dedupFirstFrom] at h
  | cons a t ih =>
    intro seen h
    simp only [dedupFirstFrom] at h
    by_cases ha : a ∈ seen
    · simp only [ha, if_pos] at h
      exact List.mem_cons_of_mem a (ih seen h)
    · simp only [ha, if_neg, not_false_iff, List.mem_cons] at h
      rcases h with rfl | h
      · exact List.mem_cons_self x t
      · exact List.mem_cons_of_mem a (ih _ h)

lemma mem_qualHeights {h : Nat} {formats : List Variant}
    (hm : h ∈ qualHeights formats) :
    ∃ v ∈ formats, v.height = some h ∧
      (v.ext = some (bytes "mp4") ∨ v.ext = some (bytes "webm")) := by
  rw [qualHeights, List.mem_filterMap] at hm
  obtain ⟨v, hv, hq⟩ := hm
  rw [qualHeight] at hq
  by_cases hok : variant_ok v = true
  · rw [if_pos hok] at hq
    exact ⟨v, hv, hq, variant_ok_ext hok⟩
  · rw [if_neg hok] at hq
    exact absurd hq (by simp)

end Yutube

/-- C8: for every string (as its UTF-8 byte sequence), `decode_url` applied to
`encode_url` returns the original string: the percent-encoding used to pack a
URL into callback data round-trips exactly through decoding. -/
theorem c8_encode_decode_roundtrip (u : List Nat) (h : ∀ b ∈ u, b < 256) :
    Yutube.decode_url (Yutube.encode_url u) = u :=
  Yutube.decode_encode h

/-- C8 witness: the round trip at the concrete URL `https://youtu.be/a_b-c`. -/
theorem c8_encode_decode_roundtrip_witness :
    Yutube.decode_url (Yutube.encode_url (Yutube.bytes "https://youtu.be/a_b-c"))
      = Yutube.bytes "https://youtu.be/a_b-c" :=
  c8_encode_decode_roundtrip (Yutube.bytes "https://youtu.be/a_b-c") (by decide)

open Yutube

/-- C1 counterexample: the claim says the slot is released only when the Job
reaches `Complete` or `Failed`.  In the code, the `finally` of
`process_download` discards the requester as soon as the selection keyboard is
shown (state `AwaitingSelection`, not terminal): the first call below ends in
`selection` with the slot set back to `∅`, and an immediate second request
from the same requester is processed again rather than rejected. -/
theorem c1_slot_released_before_terminal_cex :
    process_download ∅ 5 (bytes "https://youtu.be/abc") 100 (some demoInfo)
      = (∅, .selection (bytes "demo") [.video 720, .video 480, .audio])
    ∧ (process_download
        (process_download ∅ 5 (bytes "https://youtu.be/abc") 100 (some demoInfo)).1
        5 (bytes "https://youtu.be/abc") 100 (some demoInfo)).2
      ≠ PDOut.alreadyDownloading := by
  constructor
  · decide
  · decide

/-- C1 amended: the mutual-exclusion guard covers only the span of one
`process_download` call.  A request is rejected iff the requester is in
`downloading_users` when the call starts, and the `finally` releases the slot
on every exit path, so every call leaves `downloading_users` unchanged: by
the time the user is in `AwaitingSelection` (or any later phase, which runs
in `perform_download` without consulting the slot set) a second request is
admitted again. -/
theorem c1_amended_slot_scope (users : Finset Nat) (user : Nat) (url : List Nat)
    (maxVideoSize : Nat) (info : Option VideoInfo) :
    (process_download users user url maxVideoSize info).1 = users
    ∧ (user ∈ users →
        process_download users user url maxVideoSize info
          = (users, .alreadyDownloading)) := by
  constructor
  · by_cases h : user ∈ users
    · simp [process_download, h]
    · by_cases hv : validate_youtube_url url = true
      · cases info with
        | none => simp [process_download, h, hv, Finset.erase_insert h]
        | some vi =>
          by_cases hs : vi.filesize > maxVideoSize * 1024 * 1024 <;>
            simp [process_download, h, hv, hs, Finset.erase_insert h]
      · have hv2 : validate_youtube_url url = false := Bool.eq_false_iff.mpr hv
        simp [process_download, h, hv2]
  · intro h
    simp [process_download, h]

/-- C1 amended witness: with the slot held, a concrete second request is
rejected, and the call leaves the slot set unchanged. -/
theorem c1_amended_slot_scope_witness :
    (process_download {5} 5 (bytes "https://youtu.be/abc") 100 (some demoInfo)).1 = {5}
    ∧ process_download {5} 5 (bytes "https://youtu.be/abc") 100 (some demoInfo)
        = ({5}, PDOut.alreadyDownloading) :=
  ⟨(c1_amended_slot_scope {5} 5 (bytes "https://youtu.be/abc") 100 (some demoInfo)).1,
   (c1_amended_slot_scope {5} 5 (bytes "https://youtu.be/abc") 100 (some demoInfo)).2
     (by decide)⟩

/-- C2 counterexample: a selection event naming quality `999`, which is not in
the demo Job's catalog (and arrives while no job at all is awaiting
selection), is not ignored: `handle_callback` parses it and invokes
`perform_download` with the decoded URL and quality `999`. -/
theorem c2_selection_not_ignored_cex :
    FormatOption.video 999 ∉ build_options demoFormats
    ∧ handle_callback (bytes "dl_https%3A%2F%2Fyoutu.be%2Fabc_999")
        = .perform (bytes "https://youtu.be/abc") (bytes "999")
    ∧ handle_callback (bytes "dl_https%3A%2F%2Fyoutu.be%2Fabc_999")
        ≠ CBAction.noAction := by
  refine ⟨by decide, by decide, by decide⟩

/-- C3: `download_cookies_from_url` leaves the stored credentials unchanged
whenever it returns failure (network error, non-200 status, or content
without a recognised cookie marker), and writes new content only after the
status and the marker validation both succeed. -/
theorem c3_refresh_failure_preserves_credentials (stored : Option (List Nat))
    (url : List Nat) (fetch : List Nat → FetchResult) :
    ((download_cookies_from_url stored url fetch).1 = false →
        (download_cookies_from_url stored url fetch).2 = stored)
    ∧ ((download_cookies_from_url stored url fetch).1 = true →
        ∃ content, fetch (cookie_fetch_url url) = .resp 200 content
          ∧ cookies_valid content = true
          ∧ (download_cookies_from_url stored url fetch).2 = some content) := by
  cases hf : fetch (cookie_fetch_url url) with
  | err =>
    have hr : download_cookies_from_url stored url fetch = (false, stored) := by
      simp only [download_cookies_from_url, hf]
    rw [hr]
    exact ⟨fun _ => rfl, fun h => by simp at h⟩
  | resp status content =>
    by_cases hst : status = 200
    · subst hst
      by_cases hv : cookies_valid content = true
      · have hr : download_cookies_from_url stored url fetch
            = (true, some content) := by
          simp only [download_cookies_from_url, hf, beq_self_eq_true, if_true, hv]
        rw [hr]
        exact ⟨fun h => by simp at h, fun _ => ⟨content, rfl, hv, rfl⟩⟩
      · have hv2 : cookies_valid content = false := Bool.eq_false_iff.mpr hv
        have hr : download_cookies_from_url stored url fetch = (false, stored) := by
          simp only [download_cookies_from_url, hf, beq_self_eq_true, if_true, hv2,
            Bool.false_eq_true, if_false]
        rw [hr]
        exact ⟨fun _ => rfl, fun h => by simp at h⟩
    · have hst2 : (status == 200) = false := by simp [hst]
      have hr : download_cookies_from_url stored url fetch = (false, stored) := by
        simp only [download_cookies_from_url, hf, hst2, Bool.false_eq_true, if_false]
      rw [hr]
      exact ⟨fun _ => rfl, fun h => by simp at h⟩

/-- C3 witness: a non-200 fetch leaves concrete stored credentials intact. -/
theorem c3_refresh_failure_preserves_credentials_witness :
    (download_cookies_from_url (some (bytes "old")) (bytes "http://x")
        (fun _ => FetchResult.resp 404 (bytes "junk"))).2 = some (bytes "old") :=
  (c3_refresh_failure_preserves_credentials (some (bytes "old")) (bytes "http://x")
      (fun _ => FetchResult.resp 404 (bytes "junk"))).1 (by decide)

/-- C4: a Job whose extractor metadata declares a size over
`MAX_VIDEO_SIZE * 1024 * 1024` fails with the too-large message before the
format keyboard is built: it never reaches `AwaitingSelection`. -/
theorem c4_declared_too_large_never_selection (users : Finset Nat) (user : Nat)
    (url : List Nat) (maxVideoSize : Nat) (vi : VideoInfo)
    (hu : user ∉ users) (hv : validate_youtube_url url = true)
    (hs : vi.filesize > maxVideoSize * 1024 * 1024) :
    process_download users user url maxVideoSize (some vi) = (users, .tooLarge)
    ∧ ∀ t opts, (process_download users user url maxVideoSize (some vi)).2
        ≠ PDOut.selection t opts := by
  have h1 : process_download users user url maxVideoSize (some vi)
      = (users, .tooLarge) := by
    simp [process_download, hu, hv, hs, Finset.erase_insert hu]
  refine ⟨h1, fun t opts => ?_⟩
  rw [h1]
  simp

/-- C4 witness: a 200 MB declared size with a 100 MB limit fails without
offering selection. -/
theorem c4_declared_too_large_never_selection_witness :
    process_download ∅ 5 (bytes "https://youtu.be/abc") 100 (some demoBigInfo)
      = (∅, PDOut.tooLarge) :=
  (c4_declared_too_large_never_selection ∅ 5 (bytes "https://youtu.be/abc") 100
      demoBigInfo (by decide) (by decide) (by decide)).1

/-- C9: a credential update from a requester outside the admin set is
rejected by both `handle_document` and `update_cookies`: the rejection reply
is sent, the persisted credential file is untouched, and no transfer (document
download or cookie fetch) is attempted. -/
theorem c9_non_admin_update_rejected (adminIds : Finset Nat) (user : Nat)
    (fileName : List Nat) (stored downloaded cookieUrl : Option (List Nat))
    (fetch : List Nat → FetchResult) (h : user ∉ adminIds) :
    handle_document adminIds user fileName stored downloaded
        = (.onlyAdminsUpload, stored, false)
    ∧ update_cookies adminIds user cookieUrl stored fetch
        = (.onlyAdminsUpdate, stored, false) :=
  ⟨by simp [handle_document, h], by simp [update_cookies, h]⟩

/-- C9 witness: user 2 with admin set {1}, even with a valid upload and a
working cookie source, changes nothing. -/
theorem c9_non_admin_update_rejected_witness :
    handle_document {1} 2 (bytes "cookies.txt") (some (bytes "old"))
        (some (bytes "new"))
      = (AdminReply.onlyAdminsUpload, some (bytes "old"), false)
    ∧ update_cookies {1} 2 (some (bytes "http://c")) (some (bytes "old"))
        (fun _ => FetchResult.resp 200 (bytes "youtube.com"))
      = (AdminReply.onlyAdminsUpdate, some (bytes "old"), false) :=
  c9_non_admin_update_rejected {1} 2 (bytes "cookies.txt") (some (bytes "old"))
    (some (bytes "new")) (some (bytes "http://c"))
    (fun _ => FetchResult.resp 200 (bytes "youtube.com")) (by decide)

/-- C10: `compress_video` computes its output path by replacing `.mp4` with
`_compressed.mp4` (all occurrences, Python `str.replace`); for an input path
not containing `.mp4` the output path equals the input path, so the
pre-encoding cleanup (`os.remove(output_path)` when it exists) deletes the
input file itself before ffmpeg is invoked. -/
theorem c10_non_mp4_input_deleted_before_encoding (fs : Finset (List Nat))
    (filepath : List Nat) (hf : filepath ∈ fs)
    (hc : containsSub (bytes ".mp4") filepath = false) :
    output_path filepath = filepath
    ∧ filepath ∉ compress_preclean fs filepath := by
  have ho : output_path filepath = filepath := replaceAll_of_not_contains _ hc
  refine ⟨ho, ?_⟩
  rw [compress_preclean, ho, if_pos hf]
  exact Finset.not_mem_erase filepath fs

/-- C10 witness: a `.webm` download is deleted by the pre-encoding cleanup. -/
theorem c10_non_mp4_input_deleted_before_encoding_witness :
    output_path (bytes "downloads/v.webm") = bytes "downloads/v.webm"
    ∧ bytes "downloads/v.webm"
        ∉ compress_preclean {bytes "downloads/v.webm"} (bytes "downloads/v.webm") :=
  c10_non_mp4_input_deleted_before_encoding {bytes "downloads/v.webm"}
    (bytes "downloads/v.webm") (by decide) (by decide)

/-- C6: for every extractor result, the catalog equals the first-occurrence
dedup of the qualifying heights mapped to video options with the audio option
appended; hence it is non-empty, its last element is the unique audio-only
option, every video option comes from a variant with a recognised container
(`mp4` or `webm`) and a present height, and duplicate heights collapse to
their first occurrence. -/
theorem c6_catalog_shape (formats : List Variant) :
    build_options formats
        = (dedupFirst (qualHeights formats)).map FormatOption.video
            ++ [FormatOption.audio]
    ∧ build_options formats ≠ []
    ∧ (build_options formats).getLast? = some FormatOption.audio
    ∧ (build_options formats).count FormatOption.audio = 1
    ∧ ∀ h, FormatOption.video h ∈ build_options formats →
        ∃ v ∈ formats, v.height = some h ∧
          (v.ext = some (bytes "mp4") ∨ v.ext = some (bytes "webm")) := by
  have heq := build_options_eq formats
  refine ⟨heq, ?_, ?_, ?_, ?_⟩
  · rw [heq]
    simp
  · rw [heq]
    exact List.getLast?_concat _
  · rw [heq, List.count_append]
    have h0 : ((dedupFirst (qualHeights formats)).map FormatOption.video).count
        FormatOption.audio = 0 := by
      rw [List.count_eq_zero]
      intro hmem
      rw [List.mem_map] at hmem
      obtain ⟨a, _, ha⟩ := hmem
      exact FormatOption.noConfusion ha
    rw [h0]
    rfl
  · intro h hmem
    rw [heq, List.mem_append] at hmem
    rcases hmem with hmem | hmem
    · rw [List.mem_map] at hmem
      obtain ⟨a, ha, hha⟩ := hmem
      have hah : a = h := by injection hha
      subst hah
      exact mem_qualHeights (mem_of_mem_dedupFirstFrom _ _ ha)
    · simp at hmem

/-- C6 witness: the demo formats (720p mp4, 480p mp4, duplicate 480p webm,
height-less m4a) produce the catalog 720p, 480p, audio; its last element is
the audio option. -/
theorem c6_catalog_shape_witness :
    build_options demoFormats
        = [FormatOption.video 720, FormatOption.video 480, FormatOption.audio]
    ∧ (build_options demoFormats).getLast? = some FormatOption.audio :=
  ⟨by decide, (c6_catalog_shape demoFormats).2.2.1⟩

/-- C2 amended: `handle_callback` validates neither the job state nor catalog
membership: every `dl_`-event built from an encoded URL and a non-empty
quality string (no underscore) invokes `perform_download` with the decoded
URL and that quality string, whatever it is; only `dl_` data that fails the
parse is dropped. -/
theorem c2_amended_selection_event_always_performed (url q : List Nat)
    (hurl : ∀ b ∈ url, b < 256) (hqs : 95 ∉ q) :
    handle_callback (bytes "dl_" ++ (encode_url url ++ 95 :: q))
      = CBAction.perform url q := by
  have hdata : bytes "dl_" ++ (encode_url url ++ 95 :: q)
      = bytes "dl" ++ 95 :: (encode_url url ++ 95 :: q) := rfl
  have hsplit : splitOn 95 (bytes "dl_" ++ (encode_url url ++ 95 :: q))
      = bytes "dl" :: (splitOn 95 (encode_url url) ++ [q]) := by
    rw [hdata, splitOn_append_sep, splitOn_append_sep,
        splitOn_no_sep 95 (bytes "dl") (by decide), splitOn_no_sep 95 q hqs]
    simp
  obtain ⟨e0, es, hes⟩ : ∃ e0 es, splitOn 95 (encode_url url) = e0 :: es := by
    cases h : splitOn 95 (encode_url url) with
    | nil => exact absurd h (splitOn_ne_nil 95 (encode_url url))
    | cons a t => exact ⟨a, t, rfl⟩
  have hnd : bytes "dl_" ++ (encode_url url ++ 95 :: q) ≠ bytes "download" := by
    intro h
    have h2 : (100 : Nat) :: 108 :: 95 :: (encode_url url ++ 95 :: q)
        = [100, 111, 119, 110, 108, 111, 97, 100] := h
    simp at h2
  have hns : bytes "dl_" ++ (encode_url url ++ 95 :: q) ≠ bytes "settings" := by
    intro h
    have h2 : (100 : Nat) :: 108 :: 95 :: (encode_url url ++ 95 :: q)
        = [115, 101, 116, 116, 105, 110, 103, 115] := h
    simp at h2
  have hpre : (bytes "dl_").isPrefixOf (bytes "dl_" ++ (encode_url url ++ 95 :: q))
      = true :=
    isPrefixOf_append_self (bytes "dl_") (encode_url url ++ 95 :: q)
  have hlen : (splitOn 95 (bytes "dl_" ++ (encode_url url ++ 95 :: q))).length ≥ 3 := by
    rw [hsplit, hes]
    simp
  rw [handle_callback, if_neg hnd, if_neg hns]
  simp only [hpre, if_true, hlen, if_pos]
  have hdrop : (splitOn 95 (bytes "dl_" ++ (encode_url url ++ 95 :: q))).drop 1
      = (e0 :: es) ++ [q] := by
    rw [hsplit, hes]
    simp
  have hjoin : joinSep 95 (((splitOn 95
      (bytes "dl_" ++ (encode_url url ++ 95 :: q))).drop 1).dropLast)
      = encode_url url := by
    rw [hdrop, List.dropLast_concat, ← hes, joinSep_splitOn]
  have hlast : (splitOn 95 (bytes "dl_" ++ (encode_url url ++ 95 :: q))).getLast?
      = some q := by
    rw [hsplit, hes]
    have : (bytes "dl" :: ((e0 :: es) ++ [q]))
        = (bytes "dl" :: e0 :: es) ++ [q] := by simp
    rw [this]
    exact List.getLast?_concat _
  rw [hjoin, hlast, decode_encode hurl]
  rfl

/-- C2 amended witness: the concrete event `dl_<encoded url>_720` is
dispatched to `perform_download` with quality `720`. -/
theorem c2_amended_selection_event_always_performed_witness :
    handle_callback (bytes "dl_"
        ++ (encode_url (bytes "https://youtu.be/abc") ++ 95 :: bytes "720"))
      = CBAction.perform (bytes "https://youtu.be/abc") (bytes "720") :=
  c2_amended_selection_event_always_performed (bytes "https://youtu.be/abc")
    (bytes "720") (by decide) (by decide)

/-- C5 counterexample: a terminal `Failed(TransportTooLarge)` transition (a
60 MiB file whose compression crashed, rejected by the transport as too big)
leaves the working file in place: cleanup did not run. -/
theorem c5_failed_transition_leaves_files_cex :
    (send_video {bytes "downloads/v.mp4"} (bytes "downloads/v.mp4")
        (fun _ => 60 * 1024 * 1024) .crash .tooBig none).msg
      = SendMsg.tooLargeTelegram
    ∧ (send_video {bytes "downloads/v.mp4"} (bytes "downloads/v.mp4")
        (fun _ => 60 * 1024 * 1024) .crash .tooBig none).fs
      = {bytes "downloads/v.mp4"} := by
  constructor
  · decide
  · decide

/-- C5 amended: working files are removed only on the `Complete` transition.
After a successful send, the original and, when compression produced a
distinct copy, the compressed file are both removed (the removal is wrapped
in a bare `except` and cannot raise); on a failed send — transport
too-large in particular — no cleanup runs and the working files remain. -/
theorem c5_amended_cleanup_only_on_complete (fs : Finset (List Nat))
    (p : List Nat) (size : List Nat → Nat) (enc : EncOutcome)
    (fallback : Option (List Nat)) (hp : p ∈ fs)
    (hmp4 : containsSub (bytes ".mp4") p = true) :
    (size p ≤ 50 * 1024 * 1024 →
        send_video fs p size enc .ok fallback = ⟨.complete, fs.erase p, some p⟩
      ∧ send_video fs p size enc .tooBig fallback
          = ⟨.tooLargeTelegram, fs, some p⟩)
    ∧ (size p > 50 * 1024 * 1024 →
        ((send_video fs p size .ok .ok fallback).msg = .complete
          ∧ p ∉ (send_video fs p size .ok .ok fallback).fs
          ∧ output_path p ∉ (send_video fs p size .ok .ok fallback).fs)
      ∧ p ∈ (send_video fs p size .ok .tooBig fallback).fs) := by
  have hop : output_path p ≠ p := output_path_ne_of_mp4 hmp4
  have hpne : p ≠ output_path p := Ne.symm hop
  have hpc : p ∈ compress_preclean fs p := by
    rw [compress_preclean]
    by_cases h : output_path p ∈ fs
    · rw [if_pos h]
      exact Finset.mem_erase.mpr ⟨hpne, hp⟩
    · rw [if_neg h]
      exact hp
  constructor
  · intro hle
    have hngt : ¬ size p > 50 * 1024 * 1024 := not_lt.mpr hle
    constructor
    · simp [send_video, hp, hngt]
    · simp [send_video, hp, hngt]
  · intro hgt
    refine ⟨⟨?_, ?_, ?_⟩, ?_⟩
    · simp [send_video, compress_video, hp, hgt, hop, hpc, Finset.mem_erase]
    · simp [send_video, compress_video, hp, hgt, hop, hpc, Finset.mem_erase,
        Finset.mem_insert]
    · simp [send_video, compress_video, hp, hgt, hop, hpc, Finset.mem_erase,
        Finset.mem_insert]
    · simp [send_video, compress_video, hp, hgt, hop, hpc, Finset.mem_insert]

/-- C5 amended witness: a concrete 10 MB file is removed on `Complete` and
kept on a failed send. -/
theorem c5_amended_cleanup_only_on_complete_witness :
    send_video {bytes "downloads/v.mp4"} (bytes "downloads/v.mp4")
        (fun _ => 10 * 1024 * 1024) .ok .ok none
      = ⟨.complete, ({bytes "downloads/v.mp4"} : Finset (List Nat)).erase
          (bytes "downloads/v.mp4"), some (bytes "downloads/v.mp4")⟩
    ∧ send_video {bytes "downloads/v.mp4"} (bytes "downloads/v.mp4")
        (fun _ => 10 * 1024 * 1024) .ok .tooBig none
      = ⟨.tooLargeTelegram, {bytes "downloads/v.mp4"},
          some (bytes "downloads/v.mp4")⟩ :=
  (c5_amended_cleanup_only_on_complete {bytes "downloads/v.mp4"}
      (bytes "downloads/v.mp4") (fun _ => 10 * 1024 * 1024) .ok none
      (by decide) (by decide)).1 (by decide)

/-- C7 counterexample: the claim covers encoder absence, but only a nonzero
exit (`CalledProcessError`) is caught in `compress_video`.  When
`subprocess.run` itself raises (encoder absent), the exception propagates to
`send_video`'s generic handler: the Job ends in an error message, not
`Complete`. -/
theorem c7_encoder_absent_fails_job_cex :
    (send_video {bytes "downloads/v.mp4"} (bytes "downloads/v.mp4")
        (fun _ => 60 * 1024 * 1024) .absent .ok none).msg = SendMsg.genericError
    ∧ (send_video {bytes "downloads/v.mp4"} (bytes "downloads/v.mp4")
        (fun _ => 60 * 1024 * 1024) .absent .ok none).msg ≠ SendMsg.complete := by
  constructor
  · decide
  · decide

/-- C7 amended: a transcoder crash (nonzero exit) is recovered locally —
`compress_video` returns the original path, the original oversized file is
delivered, and the Job reaches `Complete` — but a failure of the invocation
itself (encoder absent) propagates out of `compress_video` and fails the
Job with a generic error instead of delivering. -/
theorem c7_amended_crash_recovered_absence_not (fs : Finset (List Nat))
    (p : List Nat) (size : List Nat → Nat) (fallback : Option (List Nat))
    (hp : p ∈ fs) (hmp4 : containsSub (bytes ".mp4") p = true)
    (hgt : size p > 50 * 1024 * 1024) :
    (compress_video fs p .crash).1 = Except.ok p
    ∧ send_video fs p size .crash .ok fallback
        = ⟨.complete, (compress_preclean fs p).erase p, some p⟩
    ∧ (send_video fs p size .absent .ok fallback).msg = SendMsg.genericError := by
  have hop : output_path p ≠ p := output_path_ne_of_mp4 hmp4
  have hpne : p ≠ output_path p := Ne.symm hop
  have hpc : p ∈ compress_preclean fs p := by
    rw [compress_preclean]
    by_cases h : output_path p ∈ fs
    · rw [if_pos h]
      exact Finset.mem_erase.mpr ⟨hpne, hp⟩
    · rw [if_neg h]
      exact hp
  refine ⟨rfl, ?_, ?_⟩
  · simp [send_video, compress_video, hp, hgt, hpc]
  · simp [send_video, compress_video, hp, hgt]

/-- C7 amended witness: at a concrete 60 MiB file, a crash still completes
with the original delivered; an absent encoder yields the generic error. -/
theorem c7_amended_crash_recovered_absence_not_witness :
    (compress_video {bytes "downloads/v.mp4"} (bytes "downloads/v.mp4")
        .crash).1 = Except.ok (bytes "downloads/v.mp4")
    ∧ send_video {bytes "downloads/v.mp4"} (bytes "downloads/v.mp4")
        (fun _ => 60 * 1024 * 1024) .crash .ok none
      = ⟨.complete, (compress_preclean {bytes "downloads/v.mp4"}
          (bytes "downloads/v.mp4")).erase (bytes "downloads/v.mp4"),
          some (bytes "downloads/v.mp4")⟩
    ∧ (send_video {bytes "downloads/v.mp4"} (bytes "downloads/v.mp4")
        (fun _ => 60 * 1024 * 1024) .absent .ok none).msg
      = SendMsg.genericError :=
  c7_amended_crash_recovered_absence_not {bytes "downloads/v.mp4"}
    (bytes "downloads/v.mp4") (fun _ => 60 * 1024 * 1024) none
    (by decide) (by decide) (by decide)
